import Mathlib

/-!
Verification development for the Korean-enhanced PDF-to-text converter
(`enhanced_pdf_converter.py`).  The core logic — the Korean text repairer
`repair_korean_text`, the quality scorer `evaluate_korean_quality`, the
smart method selector `extract_text_smart_korean`, the encoding-fallback
writer `safe_write_text`, and the batch orchestrator `convert_files` — is
shallowly embedded below.

A Python `str` is a finite sequence of Unicode code points, which may
include lone UTF-16 surrogates; it is therefore modelled as `List Nat`
(a `List Char` could not carry surrogate code points).  Scores, computed
with Python floats in the source, are modelled with exact rationals `ℚ`.
-/

/-- The model of a Python `str`: its list of code points. -/
abbrev PyStr := List Nat

/-- Code points of a Lean string literal, for writing concrete inputs. -/
def toCP (s : String) : PyStr := s.data.map Char.toNat

/-- Python whitespace (`str.isspace` / regex `\s` in Unicode mode):
TAB..CR, the information separators 0x1C..0x1F, space, NEL, NBSP and the
Unicode space/line/paragraph separators. -/
def isPySpace (c : Nat) : Bool :=
  (9 ≤ c && c ≤ 13) || (28 ≤ c && c ≤ 31) || c = 32 || c = 0x85 || c = 0xA0 ||
  c = 0x1680 || (0x2000 ≤ c && c ≤ 0x200A) || c = 0x2028 || c = 0x2029 ||
  c = 0x202F || c = 0x205F || c = 0x3000

/-- Precomposed Hangul syllables, the regex class `[가-힣]` (U+AC00..U+D7A3). -/
def isHangulSyllable (c : Nat) : Bool := 0xAC00 ≤ c && c ≤ 0xD7A3

/-- Hangul compatibility jamo, the regex class `[ㄱ-ㅎㅏ-ㅣ]`
(U+3131..U+314E followed contiguously by U+314F..U+3163). -/
def isCompatJamo (c : Nat) : Bool := 0x3131 ≤ c && c ≤ 0x3163

/-- The consonant part `[ㄱ-ㅎ]` (U+3131..U+314E) of the compatibility jamo. -/
def isCompatConsonant (c : Nat) : Bool := 0x3131 ≤ c && c ≤ 0x314E

/-- Python regex `\w` (Unicode word character), modelled over the character
repertoire relevant to this program: ASCII alphanumerics and underscore,
Latin-1 letters, conjoining Hangul jamo (U+1100..U+11FF), compatibility
jamo and precomposed Hangul syllables.  Code points of other scripts are
treated as non-word characters; none of the theorems below depends on the
classification of those. -/
def isWordChar (c : Nat) : Bool :=
  (48 ≤ c && c ≤ 57) || (65 ≤ c && c ≤ 90) || (97 ≤ c && c ≤ 122) || c = 95 ||
  (0xC0 ≤ c && c ≤ 0xFF && !(c = 0xD7) && !(c = 0xF7)) ||
  (0x1100 ≤ c && c ≤ 0x11FF) || isCompatJamo c || isHangulSyllable c

/-- UTF-16 surrogate code points, removed by repair step 4
(`0xD800 <= ord(char) <= 0xDFFF`). -/
def isSurrogate (c : Nat) : Bool := 0xD800 ≤ c && c ≤ 0xDFFF

/-- The control characters removed by repair step 5, the regex class
`[\x00-\x08\x0B\x0C\x0E-\x1F\x7F]` (note: TAB, LF and CR are not in it). -/
def isStrippedCtrl (c : Nat) : Bool :=
  c ≤ 8 || c = 11 || c = 12 || (14 ≤ c && c ≤ 31) || c = 127

/-- The punctuation `.,!?()` allowed by the scorer's noise class. -/
def isAllowedPunct (c : Nat) : Bool :=
  c = 46 || c = 44 || c = 33 || c = 63 || c = 40 || c = 41

/-- A "broken" character of `evaluate_korean_quality`: the regex class
`[^\w\s가-힣ㄱ-ㅎㅏ-ㅣ.,!?()]`. -/
def isBrokenChar (c : Nat) : Bool :=
  !(isWordChar c || isPySpace c || isHangulSyllable c || isCompatJamo c ||
    isAllowedPunct c)

/-- Python `str.strip()`: remove leading and trailing whitespace. -/
def pyStrip (l : PyStr) : PyStr :=
  ((l.dropWhile isPySpace).reverse.dropWhile isPySpace).reverse

/-- Scanner for `re.sub(r'\s+', ' ', text)`: `inSpace` records whether the
previous character belonged to a whitespace run whose single replacement
space has already been emitted. -/
def collapseWsGo (inSpace : Bool) : PyStr → PyStr
  | [] => []
  | c :: cs =>
    if isPySpace c then
      if inSpace then collapseWsGo true cs else 32 :: collapseWsGo true cs
    else c :: collapseWsGo false cs

/-- The substitution `re.sub(r'\s+', ' ', text)` (repair step 6a): every
maximal run of whitespace becomes a single space. -/
def collapseWs (l : PyStr) : PyStr := collapseWsGo false l

/-- Position (1-based) of the last newline in a list, if any; used to model
the greedy backtracking of `\n\s*\n`. -/
def lastNlPos : PyStr → Option Nat
  | [] => none
  | c :: cs =>
    match lastNlPos cs with
    | some k => some (k + 1)
    | none => if c = 10 then some 1 else none

/-- Fuelled scanner for `re.sub(r'\n\s*\n', '\n\n', text)`: at a newline,
`\s*` greedily consumes whitespace and backtracks to the last newline it
covered; a match is replaced by exactly two newlines and scanning resumes
after it.  The fuel (at least the input length) only discharges
termination; it is never exhausted when `blanklineSub` supplies it. -/
def blanklineSubGo : Nat → PyStr → PyStr
  | 0, l => l
  | _ + 1, [] => []
  | fuel + 1, c :: cs =>
    if c = 10 then
      match lastNlPos (cs.takeWhile isPySpace) with
      | some k => 10 :: 10 :: blanklineSubGo fuel (cs.drop k)
      | none => c :: blanklineSubGo fuel cs
    else c :: blanklineSubGo fuel cs

/-- The substitution `re.sub(r'\n\s*\n', '\n\n', text)` (repair step 6b). -/
def blanklineSub (l : PyStr) : PyStr := blanklineSubGo l.length l

/-- One entry of the `broken_patterns` table:
`re.sub(v + r'([ㄱ-ㅎ])', r'\1' + v, text)` for a fixed vowel jamo `v` —
each non-overlapping occurrence of the vowel immediately followed by a
consonant jamo is swapped, scanning left to right and resuming after each
match. -/
def subSwap (v : Nat) : PyStr → PyStr
  | [] => []
  | [c] => [c]
  | c1 :: c2 :: rest =>
    if c1 = v && isCompatConsonant c2 then c2 :: v :: subSwap v rest
    else c1 :: subSwap v (c2 :: rest)

/-- Repair step 2 (`font_recovery`): the six substitutions of the
`broken_patterns` dict, applied in insertion order ㅏ ㅓ ㅗ ㅜ ㅡ ㅣ. -/
def applyBrokenPatterns (l : PyStr) : PyStr :=
  [0x314F, 0x3153, 0x3157, 0x315C, 0x3161, 0x3163].foldl
    (fun acc v => subSwap v acc) l

/-- Leading consonant jamo (choseong), U+1100..U+1112. -/
def isJamoL (c : Nat) : Bool := 0x1100 ≤ c && c ≤ 0x1112

/-- Vowel jamo (jungseong), U+1161..U+1175. -/
def isJamoV (c : Nat) : Bool := 0x1161 ≤ c && c ≤ 0x1175

/-- Trailing consonant jamo (jongseong), U+11A8..U+11C2. -/
def isJamoT (c : Nat) : Bool := 0x11A8 ≤ c && c ≤ 0x11C2

/-- A precomposed Hangul syllable with no trailing consonant (an LV
syllable), which canonical composition may still extend with a T jamo. -/
def isLVSyllable (c : Nat) : Bool :=
  isHangulSyllable c && (c - 0xAC00) % 28 = 0

/-- Fuelled worker for `nfcK`; every step shortens the list by one, so fuel
equal to the input length is never exhausted. -/
def nfcKGo : Nat → PyStr → PyStr
  | 0, l => l
  | _ + 1, [] => []
  | _ + 1, [c] => [c]
  | fuel + 1, a :: b :: rest =>
    if isJamoL a && isJamoV b then
      nfcKGo fuel ((0xAC00 + (a - 0x1100) * 588 + (b - 0x1161) * 28) :: rest)
    else if isLVSyllable a && isJamoT b then
      nfcKGo fuel ((a + (b - 0x11A7)) :: rest)
    else a :: nfcKGo fuel (b :: rest)

/-- `unicodedata.normalize('NFC', text)` (repair step 1), modelled by the
algorithmic Hangul part of canonical composition: an L jamo followed by a
V jamo composes into an LV syllable, and an LV syllable followed by a
T jamo composes into an LVT syllable.  On code points outside the Hangul
conjoining-jamo blocks (in particular on compatibility jamo, Hangul
syllables, ASCII and whitespace, which are all NFC-invariant) it is the
identity; non-Hangul combining sequences are outside the modelled domain. -/
def nfcK (l : PyStr) : PyStr := nfcKGo l.length l

/-- The four repair toggles of the UI (`unicode_normalization`,
`font_recovery`, `charset_detection`, `broken_char_repair`). -/
structure RepairConfig where
  unicode_normalization : Bool
  font_recovery : Bool
  charset_detection : Bool
  broken_char_repair : Bool
deriving DecidableEq

/-- The body of `repair_korean_text`'s `try` block (steps 1–6 and the final
`strip`).  Step 3 (`charset_detection`) performs a round-trip encode/decode
probe whose result is discarded (the `if` body is `pass` and failures are
swallowed), so it is observably the identity and contributes nothing here. -/
def repairBody (cfg : RepairConfig) (text : PyStr) : PyStr :=
  let t1 := if cfg.unicode_normalization then nfcK text else text
  let t2 := if cfg.font_recovery then applyBrokenPatterns t1 else t1
  let t3 := t2.filter (fun c => !isSurrogate c)
  let t4 := t3.filter (fun c => !isStrippedCtrl c)
  let t5 := collapseWs t4
  let t6 := blanklineSub t5
  pyStrip t6

/-- `repair_korean_text(self, text)`.  The `fault` parameter injects an
exception inside the `try` block (`some msg` means some step raised with
that message); the `except Exception` handler logs and returns
`original_text`, so the function is total — it never propagates an
exception to its caller. -/
def repair_korean_text (cfg : RepairConfig) (fault : Option String)
    (text : PyStr) : PyStr :=
  if text = [] || !cfg.broken_char_repair then text
  else
    match fault with
    | some _ => text
    | none => repairBody cfg text

/-- Scanner counting the matches of `re.findall(r'[가-힣]{2,}', text)`:
`runLen` is the length of the current run of Hangul syllables; a greedy
match swallows a whole maximal run, so each run of length ≥ 2 counts once. -/
def countKWGo (runLen : Nat) : PyStr → Nat
  | [] => if 2 ≤ runLen then 1 else 0
  | c :: cs =>
    if isHangulSyllable c then countKWGo (runLen + 1) cs
    else (if 2 ≤ runLen then 1 else 0) + countKWGo 0 cs

/-- Number of matches of `re.findall(r'[가-힣]{2,}', text)`: maximal runs of
at least two consecutive Hangul syllables. -/
def countKoreanWords (l : PyStr) : Nat := countKWGo 0 l

/-- `evaluate_korean_quality(self, text)`: the weighted heuristic score.
Counts are taken over the whole text, the denominator `total_chars` is the
length of the stripped text; the two inner `if total_chars > 0` guards of
the source are vacuously true after the early return and are kept. -/
def evaluate_korean_quality (text : PyStr) : ℚ :=
  if text = [] then 0
  else
    let total_chars := (pyStrip text).length
    if total_chars = 0 then 0
    else
      let korean_chars := text.countP isHangulSyllable
      let score₁ : ℚ := (korean_chars : ℚ) / (total_chars : ℚ) * 100
      let complete_korean := text.countP isHangulSyllable
      let incomplete_korean := text.countP isCompatJamo
      let score₂ : ℚ :=
        if complete_korean + incomplete_korean > 0 then
          (complete_korean : ℚ) / ((complete_korean : ℚ) + (incomplete_korean : ℚ)) * 50
        else 0
      let korean_words := countKoreanWords text
      let score₃ : ℚ :=
        if total_chars > 0 then
          min ((korean_words : ℚ) / ((total_chars : ℚ) / 10) * 20) 20
        else 0
      let broken_patterns := text.countP isBrokenChar
      let score₄ : ℚ :=
        if total_chars > 0 then (broken_patterns : ℚ) / (total_chars : ℚ) * 50
        else 0
      max 0 (score₁ + score₂ + score₃ - score₄)

/-- The score formula exactly as the specification words it (§4.2): the sum
of the four weighted terms, floored at 0, with the completeness term
contributing 0 when its denominator is 0.  Stated for comparison with the
source-derived `evaluate_korean_quality`. -/
def evaluateSpecFormula (text : PyStr) : ℚ :=
  if text = [] then 0
  else if (pyStrip text).length = 0 then 0
  else
    let total : ℚ := ((pyStrip text).length : ℚ)
    let korean_ratio : ℚ := (text.countP isHangulSyllable : ℚ) / total
    let complete_ratio : ℚ :=
      if text.countP isHangulSyllable + text.countP isCompatJamo > 0 then
        (text.countP isHangulSyllable : ℚ) /
          ((text.countP isHangulSyllable : ℚ) + (text.countP isCompatJamo : ℚ))
      else 0
    let word_density : ℚ := (countKoreanWords text : ℚ) / (total / 10)
    let broken_ratio : ℚ := (text.countP isBrokenChar : ℚ) / total
    max 0 (korean_ratio * 100 + complete_ratio * 50 +
      min (word_density * 20) 20 - broken_ratio * 50)

/-- The selection loop of `extract_text_smart_korean`: `best` and `score`
are the running `best_text` / `korean_score`; a `none` candidate is a
backend whose call raised (caught, logged and skipped), a `some t` is a
backend that produced text `t` (already repaired by the per-backend
extractor).  A candidate wins iff its score is strictly greater, or equal
with a strictly longer text. -/
def selectGo (best : PyStr) (score : ℚ) : List (Option PyStr) → PyStr × ℚ
  | [] => (best, score)
  | none :: rest => selectGo best score rest
  | some t :: rest =>
    if evaluate_korean_quality t > score ∨
        (evaluate_korean_quality t = score ∧ best.length < t.length) then
      selectGo t (evaluate_korean_quality t) rest
    else selectGo best score rest

/-- `extract_text_smart_korean(self, pdf_path)`, abstracted over the list of
per-backend outcomes: starts from `best_text = ""`, `korean_score = 0` and
returns the final `best_text`. -/
def extract_text_smart_korean (candidates : List (Option PyStr)) : PyStr :=
  (selectGo [] 0 candidates).1

/-- Replacement text of the last-resort branch of `safe_write_text`:
`''.join(char if ord(char) < 128 else '?' for char in text)`. -/
def asciiFallbackText (text : PyStr) : PyStr :=
  text.map (fun c => if c < 128 then c else 63)

/-- The OS-dependent encoding priority list of `safe_write_text`. -/
def writeEncodings (windows : Bool) : List String :=
  if windows then ["utf-8", "cp949", "ascii"] else ["utf-8", "latin-1", "ascii"]

/-- Outcome of `safe_write_text`: the returned `(success, encoding)` pair
plus the code points handed to `file.write` (if any write happened). -/
structure WriteOutcome where
  ok : Bool
  encodingReport : String
  written : Option PyStr
deriving DecidableEq

/-- `safe_write_text(self, filepath, text)`.  File-system behaviour is
abstracted by `encFails` (whether opening/writing with a given encoding
raises) and `asciiFails` (whether even the last-resort ASCII write
raises).  The first non-failing encoding of the priority list wins and is
reported; if all fail, the text is degraded to `?`-replaced ASCII and the
distinct marker string is reported. -/
def safe_write_text (windows : Bool) (encFails : String → Bool)
    (asciiFails : Bool) (text : PyStr) : WriteOutcome :=
  match (writeEncodings windows).find? (fun e => !encFails e) with
  | some e => ⟨true, e, some text⟩
  | none =>
    if asciiFails then ⟨false, "실패", none⟩
    else ⟨true, "ASCII (문자 손실)", some (asciiFallbackText text)⟩

/-- `Path(filename).stem`: the filename without the extension after its
last dot (modelled for ordinary names with a nonempty stem). -/
def pathStem (s : String) : String :=
  if s.data.contains '.' then
    String.mk (((s.data.reverse.dropWhile (fun c => !(c = '.'))).drop 1).reverse)
  else s

/-- Kind of text file the orchestrator writes for one input. -/
inductive ArtifactKind
  | normal
  | emptyExplanation
  | errorExplanation
deriving DecidableEq

/-- Result of one batch run of `convert_files`: the four counters, the
output artifacts in creation order, and whether the final summary block
(guarded by `if self.is_converting:`) ran. -/
structure BatchResult where
  success_count : Nat
  empty_count : Nat
  error_count : Nat
  korean_recovered : Nat
  artifacts : List (String × ArtifactKind)
  summaryReported : Bool
deriving DecidableEq

/-- Per-file step of `convert_files` (the body of the `for` loop): an
`Except.error` is the exception branch (error-explanation file with the
`_오류` suffix, `error_count += 1`); otherwise non-whitespace text is
written as a normal output (`success_count += 1`, counting Korean
recovery), a failed write counts as an error with no artifact, and
whitespace-only text produces the "no text" explanation file
(`empty_count += 1`).  `wOk` abstracts whether `safe_write_text` managed to
write the given target at all. -/
def processFile (wOk : String → Bool) (filename : String)
    (extracted : Except String PyStr) :
    (Nat × Nat × Nat × Nat) × List (String × ArtifactKind) :=
  match extracted with
  | .error _ =>
    let errName := pathStem filename ++ "_오류.txt"
    ((0, 0, 1, 0), if wOk errName then [(errName, .errorExplanation)] else [])
  | .ok text =>
    let outName := pathStem filename ++ ".txt"
    if pyStrip text ≠ [] then
      if wOk outName then
        ((1, 0, 0, if text.countP isHangulSyllable > 0 then 1 else 0),
          [(outName, .normal)])
      else ((0, 0, 1, 0), [])
    else
      ((0, 1, 0, 0), if wOk outName then [(outName, .emptyExplanation)] else [])

/-- The `for i, pdf_path in enumerate(...)` loop of `convert_files` plus the
final summary guard.  `stopBefore i` is the value of `not self.is_converting`
as observed at the check before file `i` (and, at index `length`, at the
summary guard): when it is true the loop breaks and the summary block is
skipped; already-produced artifacts are untouched. -/
def convertGo (wOk : String → Bool) (stopBefore : Nat → Bool) :
    Nat → List (String × Except String PyStr) → BatchResult
  | i, [] => ⟨0, 0, 0, 0, [], !stopBefore i⟩
  | i, (filename, extracted) :: rest =>
    if stopBefore i then ⟨0, 0, 0, 0, [], false⟩
    else
      let step := processFile wOk filename extracted
      let r := convertGo wOk stopBefore (i + 1) rest
      ⟨step.1.1 + r.success_count, step.1.2.1 + r.empty_count,
        step.1.2.2.1 + r.error_count, step.1.2.2.2 + r.korean_recovered,
        step.2 ++ r.artifacts, r.summaryReported⟩

/-- `convert_files(self)`, abstracted over the per-file extraction results,
the write oracle and the cancellation flag. -/
def convert_files (wOk : String → Bool) (stopBefore : Nat → Bool)
    (files : List (String × Except String PyStr)) : BatchResult :=
  convertGo wOk stopBefore 0 files

/-! ### Helper lemmas about the character classes -/

theorem not_space_of_hangul {c : Nat} (h : isHangulSyllable c = true) :
    isPySpace c = false := by
  simp only [isHangulSyllable, Bool.and_eq_true, decide_eq_true_eq] at h
  simp only [isPySpace, Bool.or_eq_false_iff, Bool.and_eq_false_iff,
    decide_eq_false_iff_not]
  omega

theorem isPySpace_32 : isPySpace 32 = true := by decide

theorem isPySpace_10 : isPySpace 10 = true := by decide

/-! ### Helper lemmas about `pyStrip` -/

theorem countP_dropWhile_pySpace (p : Nat → Bool)
    (hp : ∀ c, p c = true → isPySpace c = false) (l : PyStr) :
    (l.dropWhile isPySpace).countP p = l.countP p := by
  conv_rhs => rw [← List.takeWhile_append_dropWhile (p := isPySpace) (l := l)]
  rw [List.countP_append]
  have : (l.takeWhile isPySpace).countP p = 0 := by
    rw [List.countP_eq_zero]
    intro a ha hpa
    have := List.mem_takeWhile_imp ha
    have := hp a hpa
    simp_all
  omega

theorem countP_pyStrip (p : Nat → Bool)
    (hp : ∀ c, p c = true → isPySpace c = false) (l : PyStr) :
    (pyStrip l).countP p = l.countP p := by
  unfold pyStrip
  rw [List.countP_reverse, countP_dropWhile_pySpace p hp,
    List.countP_reverse, countP_dropWhile_pySpace p hp]

theorem countP_le_length_pyStrip (p : Nat → Bool)
    (hp : ∀ c, p c = true → isPySpace c = false) (l : PyStr) :
    l.countP p ≤ (pyStrip l).length := by
  rw [← countP_pyStrip p hp]
  exact List.countP_le_length p

theorem pyStrip_eq_nil_of_all_space {l : PyStr}
    (h : ∀ c ∈ l, isPySpace c = true) : pyStrip l = [] := by
  unfold pyStrip
  have h1 : l.dropWhile isPySpace = [] := by
    rw [List.dropWhile_eq_nil_iff]
    intro x hx
    exact h x hx
  simp [h1]

theorem mem_pyStrip {c : Nat} {l : PyStr} (h : c ∈ pyStrip l) : c ∈ l := by
  unfold pyStrip at h
  rw [List.mem_reverse] at h
  have h2 := (List.dropWhile_sublist (l := (l.dropWhile isPySpace).reverse)
    isPySpace).mem h
  rw [List.mem_reverse] at h2
  exact (List.dropWhile_sublist isPySpace).mem h2

theorem head?_dropWhile_not {p : Nat → Bool} {l : PyStr} {c : Nat}
    (h : (l.dropWhile p).head? = some c) : p c = false := by
  induction l with
  | nil => simp at h
  | cons a as ih =>
    by_cases hpa : p a = true
    · rw [List.dropWhile_cons_of_pos hpa] at h
      exact ih h
    · rw [List.dropWhile_cons_of_neg (by simp_all)] at h
      simp at h
      subst h
      simp_all

theorem getLast?_pyStrip_not_space {l : PyStr} {c : Nat}
    (h : (pyStrip l).getLast? = some c) : isPySpace c = false := by
  unfold pyStrip at h
  rw [List.getLast?_reverse] at h
  exact head?_dropWhile_not h

theorem getLast?_dropWhile_of_some {p : Nat → Bool} {l : PyStr} {c : Nat}
    (h : (l.dropWhile p).getLast? = some c) : l.getLast? = some c := by
  have hsplit := List.takeWhile_append_dropWhile (p := p) (l := l)
  rw [← hsplit, List.getLast?_append, h]
  rfl

theorem head?_pyStrip_not_space {l : PyStr} {c : Nat}
    (h : (pyStrip l).head? = some c) : isPySpace c = false := by
  unfold pyStrip at h
  rw [List.head?_reverse] at h
  have h2 := getLast?_dropWhile_of_some h
  rw [List.getLast?_reverse] at h2
  exact head?_dropWhile_not h2

theorem dropWhile_eq_self_of_head {p : Nat → Bool} {l : PyStr}
    (h : ∀ c, l.head? = some c → p c = false) : l.dropWhile p = l := by
  cases l with
  | nil => rfl
  | cons a as =>
    have := h a rfl
    rw [List.dropWhile_cons_of_neg (by simp_all)]

theorem pyStrip_eq_self {l : PyStr}
    (h1 : ∀ c, l.head? = some c → isPySpace c = false)
    (h2 : ∀ c, l.getLast? = some c → isPySpace c = false) : pyStrip l = l := by
  unfold pyStrip
  rw [dropWhile_eq_self_of_head h1]
  rw [dropWhile_eq_self_of_head (by simpa using h2)]
  exact List.reverse_reverse l

theorem chain'_dropWhile {R : Nat → Nat → Prop} {p : Nat → Bool} {l : PyStr}
    (h : List.Chain' R l) : List.Chain' R (l.dropWhile p) :=
  h.suffix (List.dropWhile_suffix p)

/-! ### Helper lemmas about `collapseWs` -/

theorem mem_collapseWsGo {c : Nat} {b : Bool} {l : PyStr}
    (h : c ∈ collapseWsGo b l) :
    c = 32 ∨ (c ∈ l ∧ isPySpace c = false) := by
  induction l generalizing b with
  | nil => simp [collapseWsGo] at h
  | cons a as ih =>
    cases ha : isPySpace a with
    | true =>
      cases b with
      | true =>
        simp only [collapseWsGo, ha, if_true, Bool.false_eq_true, if_false] at h
        rcases ih h with h' | h'
        · exact Or.inl h'
        · exact Or.inr ⟨List.mem_cons_of_mem a h'.1, h'.2⟩
      | false =>
        simp only [collapseWsGo, ha, if_true, Bool.false_eq_true, if_false] at h
        rcases List.mem_cons.mp h with h' | h'
        · exact Or.inl h'
        · rcases ih h' with h'' | h''
          · exact Or.inl h''
          · exact Or.inr ⟨List.mem_cons_of_mem a h''.1, h''.2⟩
    | false =>
      simp only [collapseWsGo, ha, Bool.false_eq_true, if_false] at h
      rcases List.mem_cons.mp h with h' | h'
      · subst h'
        exact Or.inr ⟨List.mem_cons_self _ _, ha⟩
      · rcases ih h' with h'' | h''
        · exact Or.inl h''
        · exact Or.inr ⟨List.mem_cons_of_mem a h''.1, h''.2⟩

theorem space_eq_32_of_mem_collapseWsGo {c : Nat} {b : Bool} {l : PyStr}
    (h : c ∈ collapseWsGo b l) (hs : isPySpace c = true) : c = 32 := by
  rcases mem_collapseWsGo h with h' | h'
  · exact h'
  · simp_all

theorem head?_collapseWsGo_true {l : PyStr} {c : Nat}
    (h : (collapseWsGo true l).head? = some c) : isPySpace c = false := by
  induction l with
  | nil => simp [collapseWsGo] at h
  | cons a as ih =>
    cases ha : isPySpace a with
    | true =>
      simp only [collapseWsGo, ha, if_true, Bool.false_eq_true, if_false] at h
      exact ih h
    | false =>
      simp only [collapseWsGo, ha, Bool.false_eq_true, if_false] at h
      simp only [List.head?_cons, Option.some.injEq] at h
      exact h ▸ ha

/-- No two adjacent whitespace characters survive the collapse. -/
theorem chain'_collapseWsGo (b : Bool) (l : PyStr) :
    List.Chain' (fun x y => isPySpace x = false ∨ isPySpace y = false)
      (collapseWsGo b l) := by
  induction l generalizing b with
  | nil => simp [collapseWsGo]
  | cons a as ih =>
    cases ha : isPySpace a with
    | true =>
      cases b with
      | true =>
        simp only [collapseWsGo, ha, if_true, Bool.false_eq_true, if_false]
        exact ih true
      | false =>
        simp only [collapseWsGo, ha, if_true, Bool.false_eq_true, if_false]
        rw [List.chain'_cons']
        refine ⟨?_, ih true⟩
        intro y hy
        right
        exact head?_collapseWsGo_true (by simpa using hy)
    | false =>
      simp only [collapseWsGo, ha, Bool.false_eq_true, if_false]
      rw [List.chain'_cons']
      refine ⟨?_, ih false⟩
      intro y _
      exact Or.inl ha

theorem collapseWsGo_eq_self {l : PyStr} {b : Bool}
    (h32 : ∀ c ∈ l, isPySpace c = true → c = 32)
    (hch : List.Chain' (fun x y => isPySpace x = false ∨ isPySpace y = false) l)
    (hb : b = true → ∀ c, l.head? = some c → isPySpace c = false) :
    collapseWsGo b l = l := by
  induction l generalizing b with
  | nil => simp [collapseWsGo]
  | cons a as ih =>
    cases ha : isPySpace a with
    | true =>
      cases b with
      | true =>
        have := hb rfl a rfl
        simp_all
      | false =>
        simp only [collapseWsGo, ha, if_true, Bool.false_eq_true, if_false]
        have ha32 : a = 32 := h32 a (List.mem_cons_self _ _) ha
        rw [ha32]
        congr 1
        apply ih
        · intro c hc hsc
          exact h32 c (List.mem_cons_of_mem a hc) hsc
        · exact (List.chain'_cons'.mp hch).2
        · intro _ c hc
          have := (List.chain'_cons'.mp hch).1 c (by simpa using hc)
          rcases this with h' | h'
          · rw [ha] at h'
            exact absurd h' (by simp)
          · exact h'
    | false =>
      simp only [collapseWsGo, ha, Bool.false_eq_true, if_false]
      congr 1
      apply ih
      · intro c hc hsc
        exact h32 c (List.mem_cons_of_mem a hc) hsc
      · exact (List.chain'_cons'.mp hch).2
      · intro hb'
        simp at hb'

/-! ### Helper lemmas about `blanklineSub` -/

theorem blanklineSubGo_eq_self {l : PyStr} (h : (10 : Nat) ∉ l) :
    ∀ fuel, blanklineSubGo fuel l = l := by
  induction l with
  | nil => intro fuel; cases fuel <;> rfl
  | cons a as ih =>
    intro fuel
    cases fuel with
    | zero => rfl
    | succ n =>
      have ha : ¬a = 10 := fun hh => h (hh ▸ List.mem_cons_self _ _)
      simp only [blanklineSubGo, if_neg ha]
      congr 1
      exact ih (fun hm => h (List.mem_cons_of_mem a hm)) n

theorem blanklineSub_eq_self {l : PyStr} (h : (10 : Nat) ∉ l) :
    blanklineSub l = l := blanklineSubGo_eq_self h _

theorem ten_not_mem_collapseWsGo {b : Bool} {l : PyStr} :
    (10 : Nat) ∉ collapseWsGo b l := by
  intro h
  have := space_eq_32_of_mem_collapseWsGo h isPySpace_10
  omega

/-! ### Invariants of the repair pipeline output -/

theorem chain'_pyStrip {R : Nat → Nat → Prop} {l : PyStr}
    (hsymm : ∀ a b, R a b → R b a) (h : List.Chain' R l) :
    List.Chain' R (pyStrip l) := by
  unfold pyStrip
  apply (List.chain'_reverse).mpr
  apply List.Chain'.imp (fun a b hab => hsymm a b hab)
  apply chain'_dropWhile
  apply (List.chain'_reverse).mpr
  apply List.Chain'.imp (fun a b hab => hsymm a b hab)
  exact chain'_dropWhile h

/-- After steps 4–6 and the final strip, the output of the repair body has
no surrogates, no stripped control characters, only plain spaces as
whitespace, no two adjacent whitespace characters, and no leading or
trailing whitespace. -/
theorem repairBody_invariants (cfg : RepairConfig) (l : PyStr) :
    (∀ c ∈ repairBody cfg l, isSurrogate c = false) ∧
    (∀ c ∈ repairBody cfg l, isStrippedCtrl c = false) ∧
    (∀ c ∈ repairBody cfg l, isPySpace c = true → c = 32) ∧
    List.Chain' (fun x y => isPySpace x = false ∨ isPySpace y = false)
      (repairBody cfg l) ∧
    (∀ c, (repairBody cfg l).head? = some c → isPySpace c = false) ∧
    (∀ c, (repairBody cfg l).getLast? = some c → isPySpace c = false) := by
  simp only [repairBody]
  set t2 := (if cfg.font_recovery then
    applyBrokenPatterns (if cfg.unicode_normalization then nfcK l else l)
    else (if cfg.unicode_normalization then nfcK l else l)) with ht2
  set t4 := (t2.filter (fun c => !isSurrogate c)).filter
    (fun c => !isStrippedCtrl c) with ht4
  set t5 := collapseWs t4 with ht5
  have hno10 : (10 : Nat) ∉ t5 := ten_not_mem_collapseWsGo
  rw [blanklineSub_eq_self hno10]
  have hmem5 : ∀ c ∈ t5, c = 32 ∨ (c ∈ t4 ∧ isPySpace c = false) :=
    fun c hc => mem_collapseWsGo hc
  have hmemS : ∀ c ∈ pyStrip t5, c = 32 ∨ (c ∈ t4 ∧ isPySpace c = false) :=
    fun c hc => hmem5 c (mem_pyStrip hc)
  refine ⟨?_, ?_, ?_, ?_, ?_, ?_⟩
  · intro c hc
    rcases hmemS c hc with h32 | ⟨h4, _⟩
    · subst h32; decide
    · have := (List.mem_filter.mp ((List.mem_filter.mp h4).1)).2
      simpa using this
  · intro c hc
    rcases hmemS c hc with h32 | ⟨h4, _⟩
    · subst h32; decide
    · have := (List.mem_filter.mp h4).2
      simpa using this
  · intro c hc hsp
    exact space_eq_32_of_mem_collapseWsGo (mem_pyStrip hc) hsp
  · exact chain'_pyStrip (fun a b hab => hab.symm) (chain'_collapseWsGo false t4)
  · intro c hc
    exact head?_pyStrip_not_space hc
  · intro c hc
    exact getLast?_pyStrip_not_space hc

/-- The repair body is a no-op on its own output when Unicode
normalization and font recovery are switched off. -/
theorem repairBody_fixedpoint {cfg : RepairConfig}
    (hn : cfg.unicode_normalization = false) (hf : cfg.font_recovery = false)
    (l : PyStr) :
    repairBody cfg (repairBody cfg l) = repairBody cfg l := by
  obtain ⟨h1, h2, h3, h4, h5, h6⟩ := repairBody_invariants cfg l
  set o := repairBody cfg l with ho
  conv_lhs => rw [repairBody]
  rw [hn, hf]
  simp only [if_false, Bool.false_eq_true]
  have hf3 : o.filter (fun c => !isSurrogate c) = o :=
    List.filter_eq_self.mpr (fun c hc => by simp [h1 c hc])
  rw [hf3]
  have hf4 : o.filter (fun c => !isStrippedCtrl c) = o :=
    List.filter_eq_self.mpr (fun c hc => by simp [h2 c hc])
  rw [hf4]
  have hcol : collapseWs o = o := by
    unfold collapseWs
    exact collapseWsGo_eq_self h3 h4 (fun hb => by simp at hb)
  rw [hcol]
  have hno10 : (10 : Nat) ∉ o := by
    intro hmem
    have := h3 10 hmem isPySpace_10
    omega
  rw [blanklineSub_eq_self hno10]
  exact pyStrip_eq_self h5 h6

/-! ### Lemmas about the quality scorer -/

theorem evaluate_korean_quality_nil : evaluate_korean_quality [] = 0 := rfl

theorem countKWGo_zero {l : PyStr}
    (h : ∀ c ∈ l, isHangulSyllable c = false) : countKWGo 0 l = 0 := by
  induction l with
  | nil => rfl
  | cons a as ih =>
    have ha := h a (List.mem_cons_self _ _)
    simp only [countKWGo, ha, Bool.false_eq_true, if_false]
    simp only [show ¬(2 ≤ 0) by omega, if_false, Nat.zero_add]
    exact ih (fun c hc => h c (List.mem_cons_of_mem a hc))

/-- The source's accumulation of the four weighted terms coincides with the
specification's closed formula. -/
theorem evaluate_eq_specFormula (l : PyStr) :
    evaluate_korean_quality l = evaluateSpecFormula l := by
  unfold evaluate_korean_quality evaluateSpecFormula
  by_cases h0 : l = []
  · simp [h0]
  · simp only [h0, if_false]
    by_cases ht : (pyStrip l).length = 0
    · simp [ht]
    · have htpos : 0 < (pyStrip l).length := Nat.pos_of_ne_zero ht
      simp [ht, htpos]

theorem evaluate_korean_quality_nonneg (l : PyStr) :
    0 ≤ evaluate_korean_quality l := by
  unfold evaluate_korean_quality
  by_cases h0 : l = []
  · simp [h0]
  · simp only [h0, if_false]
    by_cases ht : (pyStrip l).length = 0
    · simp [ht]
    · simp only [ht, if_false]
      exact le_max_left 0 _

theorem evaluate_korean_quality_le (l : PyStr) :
    evaluate_korean_quality l ≤ 170 := by
  unfold evaluate_korean_quality
  by_cases h0 : l = []
  · simp [h0]
  · simp only [h0, if_false]
    by_cases ht : (pyStrip l).length = 0
    · simp [ht]
    · have htpos : 0 < (pyStrip l).length := Nat.pos_of_ne_zero ht
      simp only [ht, if_false, htpos, if_true]
      set T : ℚ := ((pyStrip l).length : ℚ) with hT
      have hTpos : 0 < T := by
        rw [hT]
        exact_mod_cast htpos
      have hk : l.countP isHangulSyllable ≤ (pyStrip l).length :=
        countP_le_length_pyStrip _ (fun c hc => not_space_of_hangul hc) l
      apply max_le (by norm_num)
      have h1 : (l.countP isHangulSyllable : ℚ) / T * 100 ≤ 100 := by
        have : (l.countP isHangulSyllable : ℚ) / T ≤ 1 := by
          rw [div_le_one hTpos, hT]
          exact_mod_cast hk
        nlinarith
      have h2 : (if l.countP isHangulSyllable + l.countP isCompatJamo > 0 then
          (l.countP isHangulSyllable : ℚ) /
            ((l.countP isHangulSyllable : ℚ) + (l.countP isCompatJamo : ℚ)) * 50
          else 0) ≤ 50 := by
        split_ifs with hd
        · have hdpos : (0 : ℚ) <
              (l.countP isHangulSyllable : ℚ) + (l.countP isCompatJamo : ℚ) := by
            exact_mod_cast hd
          have : (l.countP isHangulSyllable : ℚ) /
              ((l.countP isHangulSyllable : ℚ) + (l.countP isCompatJamo : ℚ)) ≤ 1 := by
            rw [div_le_one hdpos]
            have : (0 : ℚ) ≤ (l.countP isCompatJamo : ℚ) := by positivity
            linarith
          nlinarith
        · norm_num
      have h3 : min ((countKoreanWords l : ℚ) / (T / 10) * 20) 20 ≤ 20 :=
        min_le_right _ _
      have h4 : (0 : ℚ) ≤ (l.countP isBrokenChar : ℚ) / T * 50 := by positivity
      linarith

theorem evaluate_korean_quality_ws_only {l : PyStr}
    (h : ∀ c ∈ l, isPySpace c = true) : evaluate_korean_quality l = 0 := by
  unfold evaluate_korean_quality
  by_cases h0 : l = []
  · simp [h0]
  · simp [h0, pyStrip_eq_nil_of_all_space h]

/-- ASCII prose: code points below 128 that are word characters,
whitespace or the allowed punctuation — no Hangul, no jamo, no noise. -/
def isAsciiProse (c : Nat) : Bool :=
  c < 128 && (isWordChar c || isPySpace c || isAllowedPunct c)

theorem evaluate_korean_quality_ascii_prose {l : PyStr}
    (h : ∀ c ∈ l, isAsciiProse c = true) : evaluate_korean_quality l = 0 := by
  have hlt : ∀ c ∈ l, c < 128 := by
    intro c hc
    have := h c hc
    simp only [isAsciiProse, Bool.and_eq_true, decide_eq_true_eq] at this
    exact this.1
  have hhang : l.countP isHangulSyllable = 0 := by
    rw [List.countP_eq_zero]
    intro c hc hcc
    have h1 := hlt c hc
    simp only [isHangulSyllable, Bool.and_eq_true, decide_eq_true_eq] at hcc
    omega
  have hjamo : l.countP isCompatJamo = 0 := by
    rw [List.countP_eq_zero]
    intro c hc hcc
    have h1 := hlt c hc
    simp only [isCompatJamo, Bool.and_eq_true, decide_eq_true_eq] at hcc
    omega
  have hbrok : l.countP isBrokenChar = 0 := by
    rw [List.countP_eq_zero]
    intro c hc hcc
    have h1 := h c hc
    simp only [isAsciiProse, isBrokenChar, Bool.and_eq_true, decide_eq_true_eq,
      Bool.not_eq_true', Bool.or_eq_false_iff, Bool.or_eq_true] at h1 hcc
    rcases h1.2 with (hw | hw) | hw <;> simp_all
  have hwords : countKoreanWords l = 0 := by
    unfold countKoreanWords
    apply countKWGo_zero
    intro c hc
    have h1 := hlt c hc
    simp only [isHangulSyllable, Bool.and_eq_false_iff, decide_eq_false_iff_not]
    omega
  unfold evaluate_korean_quality
  by_cases h0 : l = []
  · simp [h0]
  · simp only [h0, if_false]
    by_cases ht : (pyStrip l).length = 0
    · simp [ht]
    · have htpos : 0 < (pyStrip l).length := Nat.pos_of_ne_zero ht
      simp only [ht, if_false, htpos, if_true, hhang, hjamo, hbrok, hwords]
      norm_num

/-! ### Lemmas about the smart selector -/

theorem selectGo_spec (l : List (Option PyStr)) :
    ∀ (b : PyStr) (s : ℚ),
      s ≤ (selectGo b s l).2 ∧
      (∀ t, some t ∈ l → evaluate_korean_quality t ≤ (selectGo b s l).2) ∧
      ((selectGo b s l).2 = s → b.length ≤ (selectGo b s l).1.length) ∧
      (∀ t, some t ∈ l → evaluate_korean_quality t = (selectGo b s l).2 →
        t.length ≤ (selectGo b s l).1.length) ∧
      (s = evaluate_korean_quality b →
        (selectGo b s l).2 = evaluate_korean_quality (selectGo b s l).1) := by
  induction l with
  | nil =>
    intro b s
    refine ⟨le_refl s, ?_, fun _ => le_refl _, ?_, ?_⟩
    · intro t ht; simp at ht
    · intro t ht; simp at ht
    · intro hs; simpa [selectGo] using hs
  | cons c rest ih =>
    intro b s
    match c with
    | none =>
      obtain ⟨ih1, ih2, ih3, ih4, ih5⟩ := ih b s
      refine ⟨ih1, ?_, ih3, ?_, ih5⟩
      · intro t ht
        rcases List.mem_cons.mp ht with ht' | ht'
        · exact absurd ht' (by simp)
        · exact ih2 t ht'
      · intro t ht
        rcases List.mem_cons.mp ht with ht' | ht'
        · exact fun _ => absurd ht' (by simp)
        · exact ih4 t ht'
    | some t₀ =>
      by_cases hC : evaluate_korean_quality t₀ > s ∨
          (evaluate_korean_quality t₀ = s ∧ b.length < t₀.length)
      · have hsel : selectGo b s (some t₀ :: rest) =
            selectGo t₀ (evaluate_korean_quality t₀) rest := by
          simp only [selectGo, if_pos hC]
        obtain ⟨ih1, ih2, ih3, ih4, ih5⟩ := ih t₀ (evaluate_korean_quality t₀)
        rw [hsel]
        refine ⟨?_, ?_, ?_, ?_, fun _ => ih5 rfl⟩
        · rcases hC with h' | h'
          · exact le_trans (le_of_lt h') ih1
          · exact h'.1 ▸ ih1
        · intro t ht
          rcases List.mem_cons.mp ht with ht' | ht'
          · have : t = t₀ := by simpa using ht'
            exact this ▸ ih1
          · exact ih2 t ht'
        · intro hs2
          rcases hC with h' | h'
          · exact absurd (lt_of_lt_of_le h' ih1) (by rw [hs2]; exact lt_irrefl s)
          · have hb := ih3 (hs2.trans h'.1.symm)
            exact le_trans (le_of_lt h'.2) hb
        · intro t ht he
          rcases List.mem_cons.mp ht with ht' | ht'
          · have htt : t = t₀ := by simpa using ht'
            subst htt
            exact ih3 he.symm
          · exact ih4 t ht' he
      · have hsel : selectGo b s (some t₀ :: rest) = selectGo b s rest := by
          simp only [selectGo, if_neg hC]
        push_neg at hC
        obtain ⟨ih1, ih2, ih3, ih4, ih5⟩ := ih b s
        rw [hsel]
        refine ⟨ih1, ?_, ih3, ?_, ih5⟩
        · intro t ht
          rcases List.mem_cons.mp ht with ht' | ht'
          · have : t = t₀ := by simpa using ht'
            subst this
            exact le_trans hC.1 ih1
          · exact ih2 t ht'
        · intro t ht he
          rcases List.mem_cons.mp ht with ht' | ht'
          · have htt : t = t₀ := by simpa using ht'
            subst htt
            have hes : evaluate_korean_quality t = s :=
              le_antisymm hC.1 (he ▸ ih1)
            have hlen : t.length ≤ b.length := hC.2 hes
            exact le_trans hlen (ih3 (he.symm.trans hes))
          · exact ih4 t ht' he

theorem selectGo_all_empty :
    ∀ l : List (Option PyStr),
      (∀ c ∈ l, c = none ∨ c = some ([] : PyStr)) →
      selectGo [] 0 l = ([], 0) := by
  intro l
  induction l with
  | nil => intro _; rfl
  | cons c rest ih =>
    intro h
    rcases h c (List.mem_cons_self _ _) with hc | hc
    · subst hc
      exact ih (fun c hc => h c (List.mem_cons_of_mem _ hc))
    · subst hc
      have hcond : ¬(evaluate_korean_quality ([] : PyStr) > 0 ∨
          (evaluate_korean_quality ([] : PyStr) = 0 ∧
            ([] : PyStr).length < ([] : PyStr).length)) := by
        rw [evaluate_korean_quality_nil]
        simp
      simp only [selectGo, if_neg hcond]
      exact ih (fun c hc => h c (List.mem_cons_of_mem _ hc))

/-! ### Lemmas about the batch loop -/

theorem convertGo_noStop_index (wOk : String → Bool)
    (files : List (String × Except String PyStr)) :
    ∀ i j, convertGo wOk (fun _ => false) i files =
      convertGo wOk (fun _ => false) j files := by
  induction files with
  | nil => intro i j; rfl
  | cons f rest ih =>
    intro i j
    obtain ⟨fn, ex⟩ := f
    simp only [convertGo, Bool.false_eq_true, if_false]
    rw [ih (i + 1) (j + 1)]

theorem convertGo_cancelled (wOk : String → Bool) (k : Nat) :
    ∀ (files : List (String × Except String PyStr)) (i : Nat),
      k < i + files.length →
      convertGo wOk (fun j => decide (k ≤ j)) i files =
        ⟨(convertGo wOk (fun _ => false) 0 (files.take (k - i))).success_count,
         (convertGo wOk (fun _ => false) 0 (files.take (k - i))).empty_count,
         (convertGo wOk (fun _ => false) 0 (files.take (k - i))).error_count,
         (convertGo wOk (fun _ => false) 0 (files.take (k - i))).korean_recovered,
         (convertGo wOk (fun _ => false) 0 (files.take (k - i))).artifacts,
         false⟩ := by
  intro files
  induction files with
  | nil =>
    intro i hik
    simp only [List.length_nil, Nat.add_zero] at hik
    have hki : k ≤ i := le_of_lt hik
    have hkim : k - i = 0 := Nat.sub_eq_zero_of_le hki
    simp [convertGo, hkim, hki, List.take]
  | cons f rest ih =>
    intro i hik
    obtain ⟨fn, ex⟩ := f
    by_cases hki : k ≤ i
    · have hkim : k - i = 0 := Nat.sub_eq_zero_of_le hki
      simp [convertGo, hkim, hki, List.take]
    · have hik' : i < k := Nat.lt_of_not_le hki
      have hkim : k - i = (k - (i + 1)) + 1 := by omega
      have hrec := ih (i + 1) (by simpa [Nat.add_assoc, Nat.add_comm 1] using hik)
      simp only [convertGo, hki, decide_eq_true_eq, if_false, hkim, List.take,
        Bool.false_eq_true]
      rw [hrec, convertGo_noStop_index wOk (rest.take (k - (i + 1))) 1 0]

/-! ### Concrete batch scenarios (claims C4 and C8) -/

/-- The three-file scenario of the spec's §8 batch property, run in smart
mode: file A yields non-empty (Korean) text, file B yields only
whitespace, and for file C every backend raises — so the smart selector,
which catches and skips each raising backend, hands the orchestrator the
empty string. -/
def smartScenario : List (String × Except String PyStr) :=
  [("a.pdf", Except.ok (toCP "안녕하세요")),
   ("b.pdf", Except.ok (toCP "   ")),
   ("c.pdf", Except.ok (extract_text_smart_korean [none, none, none, none]))]

/-- The same three files with a pinned single backend: file C's backend
raises, `extract_text_from_pdf` re-raises, and the orchestrator's
`except` branch sees an exception. -/
def pinnedScenario : List (String × Except String PyStr) :=
  [("a.pdf", Except.ok (toCP "안녕하세요")),
   ("b.pdf", Except.ok (toCP "   ")),
   ("c.pdf", Except.error "텍스트 추출 실패: pdfminer 추출 실패")]

/-! ### The claims -/

/-- Claim C1: for every finite list of extraction candidates processed in
order by the smart selector, the retained text's quality score is greater
than or equal to every successful candidate's score; on an exact score tie
the retained text's length is greater than or equal to every tied
candidate's length; and if every backend fails (`none`) or returns empty
text the selector's result is the empty string. -/
theorem C1_smart_selector_best (cands : List (Option PyStr)) :
    (∀ t, some t ∈ cands →
      evaluate_korean_quality t ≤
        evaluate_korean_quality (extract_text_smart_korean cands) ∧
      (evaluate_korean_quality t =
          evaluate_korean_quality (extract_text_smart_korean cands) →
        t.length ≤ (extract_text_smart_korean cands).length)) ∧
    ((∀ c ∈ cands, c = none ∨ c = some ([] : PyStr)) →
      extract_text_smart_korean cands = []) := by
  obtain ⟨_, ih2, _, ih4, ih5⟩ := selectGo_spec cands [] 0
  have hscore : (selectGo [] 0 cands).2 =
      evaluate_korean_quality (selectGo [] 0 cands).1 :=
    ih5 evaluate_korean_quality_nil.symm
  constructor
  · intro t ht
    constructor
    · have h := ih2 t ht
      rw [hscore] at h
      exact h
    · intro he
      apply ih4 t ht
      rw [hscore]
      exact he
  · intro h
    unfold extract_text_smart_korean
    rw [selectGo_all_empty cands h]

/-- Witness for C1 at a concrete candidate list. -/
theorem C1_smart_selector_best_witness :
    (evaluate_korean_quality (toCP "hi") ≤
        evaluate_korean_quality
          (extract_text_smart_korean [some (toCP "hi"), none, some []]) ∧
      (evaluate_korean_quality (toCP "hi") =
          evaluate_korean_quality
            (extract_text_smart_korean [some (toCP "hi"), none, some []]) →
        (toCP "hi").length ≤
          (extract_text_smart_korean [some (toCP "hi"), none, some []]).length)) ∧
    extract_text_smart_korean [none, some []] = [] :=
  ⟨(C1_smart_selector_best [some (toCP "hi"), none, some []]).1 (toCP "hi")
      (by decide),
   (C1_smart_selector_best [none, some []]).2 (by decide)⟩

/-- Claim C2: the quality scorer computes exactly the specification's
formula `max(0, korean_ratio*100 + complete_ratio*50 +
min(word_density*20, 20) - broken_ratio*50)` (the completeness term
contributing 0 on a zero denominator); it returns exactly 0 for empty
input and exactly 0 for pure ASCII prose with no Hangul, no jamo and no
noise characters. -/
theorem C2_scorer_formula :
    (∀ l : PyStr, evaluate_korean_quality l = evaluateSpecFormula l) ∧
    evaluate_korean_quality [] = 0 ∧
    (∀ l : PyStr, (∀ c ∈ l, isAsciiProse c = true) →
      evaluate_korean_quality l = 0) :=
  ⟨evaluate_eq_specFormula, evaluate_korean_quality_nil,
    fun _ h => evaluate_korean_quality_ascii_prose h⟩

/-- Witness for C2 at a concrete ASCII-prose input. -/
theorem C2_scorer_formula_witness :
    evaluate_korean_quality (toCP "The quick brown fox jumps.") = 0 :=
  C2_scorer_formula.2.2 (toCP "The quick brown fox jumps.") (by decide)

/-- Counterexample to claim C3: with all repair toggles enabled the
repairer is not idempotent.  On `"ㅏㄱㄱ"` the font-recovery substitution
moves the misplaced vowel jamo one position per application:
the first application yields `"ㄱㅏㄱ"`, the second `"ㄱㄱㅏ"`. -/
theorem C3_repair_not_idempotent :
    repair_korean_text ⟨true, true, true, true⟩ none
        (repair_korean_text ⟨true, true, true, true⟩ none (toCP "ㅏㄱㄱ")) ≠
      repair_korean_text ⟨true, true, true, true⟩ none (toCP "ㅏㄱㄱ") := by
  decide

/-- Amended claim C3: the repairer is idempotent whenever Unicode
normalization and font recovery are disabled (the unconditional cleanup
steps 4–6 and the final trim are idempotent); with font recovery enabled a
vowel jamo standing before a run of consonant jamo migrates one position
per application, and with normalization enabled removing a control
character can expose a newly composable jamo pair, so idempotence fails in
general. -/
theorem C3_repair_idempotent_without_recovery (cfg : RepairConfig)
    (hn : cfg.unicode_normalization = false) (hf : cfg.font_recovery = false)
    (l : PyStr) :
    repair_korean_text cfg none (repair_korean_text cfg none l) =
      repair_korean_text cfg none l := by
  cases hb : cfg.broken_char_repair with
  | false =>
    unfold repair_korean_text
    simp [hb]
  | true =>
    have hrw : ∀ m : PyStr, m ≠ [] →
        repair_korean_text cfg none m = repairBody cfg m := by
      intro m hm
      unfold repair_korean_text
      simp [hm, hb]
    by_cases h0 : l = []
    · subst h0
      have : repair_korean_text cfg none ([] : PyStr) = [] := by
        unfold repair_korean_text
        simp
      rw [this, this]
    · rw [hrw l h0]
      by_cases h0' : repairBody cfg l = []
      · rw [h0']
        unfold repair_korean_text
        simp
      · rw [hrw _ h0', repairBody_fixedpoint hn hf l]

/-- Witness for the amended C3 at a concrete input. -/
theorem C3_repair_idempotent_without_recovery_witness :
    repair_korean_text ⟨false, false, true, true⟩ none
        (repair_korean_text ⟨false, false, true, true⟩ none
          (toCP " 한 글  x ")) =
      repair_korean_text ⟨false, false, true, true⟩ none (toCP " 한 글  x ") :=
  C3_repair_idempotent_without_recovery ⟨false, false, true, true⟩ rfl rfl _

/-- Counterexample to claim C4: in smart mode a file for which every
backend raises does **not** produce the `_오류` error output — the smart
selector swallows every backend failure and returns the empty string, so
the file is classified as "no text" instead.  The three-file scenario
yields success=1, empty=2, error=0, and file C's artifact is `c.txt`, not
`c_오류.txt`. -/
theorem C4_batch_scenario_counterexample :
    convert_files (fun _ => true) (fun _ => false) smartScenario =
      ⟨1, 2, 0, 1,
        [("a.txt", .normal), ("b.txt", .emptyExplanation),
         ("c.txt", .emptyExplanation)], true⟩ ∧
    ¬(convert_files (fun _ => true) (fun _ => false)
        smartScenario).error_count = 1 :=
  ⟨by decide, by decide⟩

/-- Amended claim C4: in smart mode the scenario produces a normal output
for A, "no text" explanations for both B and C, and counts success=1,
empty=2, error=0; the claimed outcome (error output `c_오류.txt`,
success=1, empty=1, error=1) occurs when extraction raises through to the
orchestrator, as with a pinned single backend. -/
theorem C4_batch_scenario_amended :
    convert_files (fun _ => true) (fun _ => false) smartScenario =
      ⟨1, 2, 0, 1,
        [("a.txt", .normal), ("b.txt", .emptyExplanation),
         ("c.txt", .emptyExplanation)], true⟩ ∧
    convert_files (fun _ => true) (fun _ => false) pinnedScenario =
      ⟨1, 1, 1, 1,
        [("a.txt", .normal), ("b.txt", .emptyExplanation),
         ("c_오류.txt", .errorExplanation)], true⟩ :=
  ⟨by decide, by decide⟩

/-- Claim C5: whenever the repairer hits an internal failure (modelled by
the injected `fault`), it returns the original, unrepaired input text for
every toggle configuration; being a total function, it never propagates an
exception to its caller. -/
theorem C5_repair_returns_original_on_failure (cfg : RepairConfig)
    (msg : String) (text : PyStr) :
    repair_korean_text cfg (some msg) text = text := by
  unfold repair_korean_text
  split
  · rfl
  · rfl

/-- Counterexample to claim C6: the cleanup does not collapse two or more
consecutive blank lines to exactly one blank line — the preceding
whitespace collapse rewrites every whitespace run (newlines included) to a
single space, so no newline and hence no blank line survives at all:
`"a\n\n\nb"` becomes `"a b"`, not `"a\n\nb"`. -/
theorem C6_blank_lines_not_preserved :
    repair_korean_text ⟨false, false, false, true⟩ none (toCP "a\n\n\nb") =
      toCP "a b" ∧
    (10 : Nat) ∉
      repair_korean_text ⟨false, false, false, true⟩ none (toCP "a\n\n\nb") :=
  ⟨by decide, by decide⟩

/-- Amended claim C6: with `repair_broken_chars` enabled the cleanup strips
surrogates and the control characters of `[\x00-\x08\x0B\x0C\x0E-\x1F\x7F]`,
then collapses every whitespace run — newlines and tabs included — to a
single space (so the later blank-line collapse is a no-op and no newline,
tab or blank line survives), and trims: the output has no surrogate, no
stripped control character, every whitespace character in it is a single
plain space, no two whitespace characters are adjacent, and it neither
starts nor ends with whitespace. -/
theorem C6_cleanup_invariants (cfg : RepairConfig)
    (hb : cfg.broken_char_repair = true) (l : PyStr) :
    (∀ c ∈ repair_korean_text cfg none l, isSurrogate c = false) ∧
    (∀ c ∈ repair_korean_text cfg none l, isStrippedCtrl c = false) ∧
    (∀ c ∈ repair_korean_text cfg none l, isPySpace c = true → c = 32) ∧
    List.Chain' (fun x y => isPySpace x = false ∨ isPySpace y = false)
      (repair_korean_text cfg none l) ∧
    (∀ c, (repair_korean_text cfg none l).head? = some c →
      isPySpace c = false) ∧
    (∀ c, (repair_korean_text cfg none l).getLast? = some c →
      isPySpace c = false) := by
  by_cases h0 : l = []
  · subst h0
    refine ⟨?_, ?_, ?_, ?_, ?_, ?_⟩ <;> simp [repair_korean_text]
  · have hrw : repair_korean_text cfg none l = repairBody cfg l := by
      unfold repair_korean_text
      simp [h0, hb]
    rw [hrw]
    exact repairBody_invariants cfg l

/-- Witness for the amended C6 at a concrete input. -/
theorem C6_cleanup_invariants_witness :
    (∀ c ∈ repair_korean_text ⟨true, true, true, true⟩ none (toCP " a\tb\n\nc "),
      isSurrogate c = false) ∧
    (∀ c ∈ repair_korean_text ⟨true, true, true, true⟩ none (toCP " a\tb\n\nc "),
      isStrippedCtrl c = false) ∧
    (∀ c ∈ repair_korean_text ⟨true, true, true, true⟩ none (toCP " a\tb\n\nc "),
      isPySpace c = true → c = 32) ∧
    List.Chain' (fun x y => isPySpace x = false ∨ isPySpace y = false)
      (repair_korean_text ⟨true, true, true, true⟩ none (toCP " a\tb\n\nc ")) ∧
    (∀ c, (repair_korean_text ⟨true, true, true, true⟩ none
        (toCP " a\tb\n\nc ")).head? = some c → isPySpace c = false) ∧
    (∀ c, (repair_korean_text ⟨true, true, true, true⟩ none
        (toCP " a\tb\n\nc ")).getLast? = some c → isPySpace c = false) :=
  C6_cleanup_invariants ⟨true, true, true, true⟩ rfl (toCP " a\tb\n\nc ")

/-- Claim C7: when every encoding of the ordered fallback list fails, the
writer replaces every non-ASCII character of the text with `?` (code
point 63), writes that all-ASCII result with the error-tolerant ASCII
encoder, and reports the marker `"ASCII (문자 손실)"`, which is distinct
from every encoding name reported on normal success. -/
theorem C7_degraded_ascii_write (windows : Bool) (encFails : String → Bool)
    (text : PyStr) (hall : ∀ e ∈ writeEncodings windows, encFails e = true) :
    safe_write_text windows encFails false text =
      ⟨true, "ASCII (문자 손실)", some (asciiFallbackText text)⟩ ∧
    (∀ c ∈ asciiFallbackText text, c < 128) ∧
    (∀ i : Fin text.length,
      (asciiFallbackText text).get
          ⟨i, by simp [asciiFallbackText]⟩ =
        if text.get i < 128 then text.get i else 63) ∧
    "ASCII (문자 손실)" ∉ writeEncodings windows := by
  have hfind : (writeEncodings windows).find? (fun e => !encFails e) = none := by
    rw [List.find?_eq_none]
    intro e he
    simp [hall e he]
  refine ⟨?_, ?_, ?_, ?_⟩
  · unfold safe_write_text
    rw [hfind]
    rfl
  · intro c hc
    simp only [asciiFallbackText, List.mem_map] at hc
    obtain ⟨a, _, ha⟩ := hc
    subst ha
    split
    · assumption
    · omega
  · intro i
    simp [asciiFallbackText, List.get_map]
  · cases windows <;> decide

/-- Witness for C7 at a concrete text over an all-failing oracle. -/
theorem C7_degraded_ascii_write_witness :
    safe_write_text false (fun _ => true) false (toCP "한a글?") =
      ⟨true, "ASCII (문자 손실)", some (asciiFallbackText (toCP "한a글?"))⟩ ∧
    (∀ c ∈ asciiFallbackText (toCP "한a글?"), c < 128) ∧
    (∀ i : Fin (toCP "한a글?").length,
      (asciiFallbackText (toCP "한a글?")).get
          ⟨i, by simp [asciiFallbackText]⟩ =
        if (toCP "한a글?").get i < 128 then (toCP "한a글?").get i else 63) ∧
    "ASCII (문자 손실)" ∉ writeEncodings false :=
  C7_degraded_ascii_write false (fun _ => true) (toCP "한a글?")
    (fun _ _ => rfl)

/-- Counterexample to claim C8: cancelling after file 1 of 3 does leave
exactly the one finished artifact, but the batch does **not** report a
partial summary — the summary block is guarded by `if self.is_converting:`
and is skipped entirely once the flag is cleared. -/
theorem C8_cancel_skips_summary :
    (convert_files (fun _ => true) (fun i => decide (1 ≤ i))
        smartScenario).artifacts = [("a.txt", .normal)] ∧
    (convert_files (fun _ => true) (fun i => decide (1 ≤ i))
        smartScenario).summaryReported = false :=
  ⟨by decide, by decide⟩

/-- Amended claim C8: when the cancellation flag is cleared before file `k`
of a longer batch, the run behaves exactly like an uncancelled run over
the first `k` files — the finished files keep their artifacts and the
counters reflect exactly them — except that no final summary is reported
at all. -/
theorem C8_partial_batch (wOk : String → Bool) (k : Nat)
    (files : List (String × Except String PyStr)) (hk : k < files.length) :
    convert_files wOk (fun i => decide (k ≤ i)) files =
      ⟨(convert_files wOk (fun _ => false) (files.take k)).success_count,
       (convert_files wOk (fun _ => false) (files.take k)).empty_count,
       (convert_files wOk (fun _ => false) (files.take k)).error_count,
       (convert_files wOk (fun _ => false) (files.take k)).korean_recovered,
       (convert_files wOk (fun _ => false) (files.take k)).artifacts,
       false⟩ := by
  have h := convertGo_cancelled wOk k files 0 (by simpa using hk)
  simpa [convert_files] using h

/-- Witness for the amended C8: cancelling before file 1 of the three-file
scenario. -/
theorem C8_partial_batch_witness :
    convert_files (fun _ => true) (fun i => decide (1 ≤ i)) smartScenario =
      ⟨(convert_files (fun _ => true) (fun _ => false)
          (smartScenario.take 1)).success_count,
       (convert_files (fun _ => true) (fun _ => false)
          (smartScenario.take 1)).empty_count,
       (convert_files (fun _ => true) (fun _ => false)
          (smartScenario.take 1)).error_count,
       (convert_files (fun _ => true) (fun _ => false)
          (smartScenario.take 1)).korean_recovered,
       (convert_files (fun _ => true) (fun _ => false)
          (smartScenario.take 1)).artifacts,
       false⟩ :=
  C8_partial_batch (fun _ => true) 1 smartScenario (by decide)

/-- Claim C9: with the `repair_broken_chars` toggle disabled the repairer
returns its input completely unchanged, whatever the other three toggles
(and even under an injected internal fault). -/
theorem C9_repair_disabled_is_identity (cfg : RepairConfig)
    (fault : Option String) (text : PyStr)
    (h : cfg.broken_char_repair = false) :
    repair_korean_text cfg fault text = text := by
  unfold repair_korean_text
  simp [h]

/-- Witness for C9 at a concrete input with all other toggles enabled. -/
theorem C9_repair_disabled_is_identity_witness :
    repair_korean_text ⟨true, true, true, false⟩ none (toCP " ㅏㄱ \n\n x ") =
      toCP " ㅏㄱ \n\n x " :=
  C9_repair_disabled_is_identity ⟨true, true, true, false⟩ none _ rfl

/-- Claim C10: every score lies in the closed interval [0, 170] — the three
positive terms are bounded by 100, 50 and 20 and the negative term is
clamped away by the final `max` with 0 — and whitespace-only input (not
just empty input) scores exactly 0. -/
theorem C10_score_bounds (l : PyStr) :
    (0 ≤ evaluate_korean_quality l ∧ evaluate_korean_quality l ≤ 170) ∧
    ((∀ c ∈ l, isPySpace c = true) → evaluate_korean_quality l = 0) :=
  ⟨⟨evaluate_korean_quality_nonneg l, evaluate_korean_quality_le l⟩,
    fun h => evaluate_korean_quality_ws_only h⟩

/-- Witness for C10 at a concrete whitespace-only input. -/
theorem C10_score_bounds_witness :
    evaluate_korean_quality (toCP " \t\n ") = 0 :=
  (C10_score_bounds (toCP " \t\n ")).2 (by decide)
